import Mathlib

/-!
Shallow embedding of the beacon chain synchronization subsystem of
drand-rs (file `src/chain/sync.rs`).

Network effects are made explicit:

* a peer connection is an `Option (List BeaconPacket)`: `none` models a
  connection or stream-open failure (the `Err` arms of
  `ProtocolClient::new` / `sync_chain`), `some msgs` models a stream that
  yields the packets `msgs` in order and then ends (an `Err` or
  `Ok(None)` from `stream.message()` simply ends the `while let` loop);
* the progress channel `tx` is modelled by a predicate
  `sendOk : Nat → Bool` giving the success of the n-th send attempt;
* the cryptographic scheme is abstract: the signature deserializer
  `Affine::deserialize` becomes `deser : List Nat → Option P` and the
  chained-signature check `is_valid_signature` becomes
  `isValid : K → List Nat → Nat → P → Bool` taking the public key, the
  previous stored signature bytes, the round and the deserialized
  candidate signature;
* the store is append-only and its `put` calls are recorded as a trace:
  the model returns the list of packets whose beacons were passed to
  `store.put` (the actual argument of each call is
  `Beacon.fromPacket p`, see `putCalls`).

Logging is omitted: the rate-limiting conditions in the source only
guard `debug!` calls and have no effect on control flow.
-/

namespace DrandSync

/-- Protobuf `Metadata` message: the fields read by the sync module
(`beacon_id` on beacon and chain-info packets, `chain_hash` on the
`StartSyncRequest` metadata). -/
structure Metadata where
  beacon_id : String
  chain_hash : List Nat
  deriving DecidableEq

/-- Protobuf `BeaconPacket`: a beacon as received from a peer stream. -/
structure BeaconPacket where
  round : Nat
  signature : List Nat
  metadata : Option Metadata
  deriving DecidableEq

/-- Stored beacon representation (trait `BeaconRepr`): the data with a
`round()` and `signature()` accessor, per the spec a round counter plus
signature bytes. -/
structure Beacon where
  round : Nat
  signature : List Nat
  deriving DecidableEq

/-- `B::from_packet`: the stored beacon built from a validated packet. -/
def Beacon.fromPacket (p : BeaconPacket) : Beacon :=
  { round := p.round, signature := p.signature }

/-- The `SyncError` enum of `sync.rs`. -/
inductive SyncError where
  | InvalidInfoPacket
  | InfoPacketMismatch
  | AlreadySyncing
  | PeersInvalidFormat
  | FailedInfoFromAllPeers
  | ChainHashMismatch (details : String)
  | Internal
  | ChainStore
  | InvalidTarget (fromRound : Nat) (target : Nat)
  | SyncClosedTx
  | TriedAllPers (last : Nat)
  | ForbiddenToFollow
  deriving DecidableEq

/-- Outcome of a sync task, `Result<(), SyncError>`. -/
inductive SyncResult where
  | ok
  | err (e : SyncError)
  deriving DecidableEq

/-- A peer connection attempt: `none` is a connect / stream-open failure,
`some msgs` a stream delivering `msgs` and then ending. -/
abbrev PeerConn := Option (List BeaconPacket)

/-- Ambient data of a `DefaultSyncer` follow session: the abstract
scheme (`deser`, `isValid`), the chain-info public key, the configured
beacon id, the target round, and the progress-channel behaviour. -/
structure FollowCtx (K P : Type) where
  deser : List Nat → Option P
  isValid : K → List Nat → Nat → P → Bool
  public_key : K
  beacon_id : String
  target : Nat
  sendOk : Nat → Bool

/-- How the inner `while let` stream loop of `process_follow_request`
ends: `next last` resumes the outer peer loop (stream ended or the peer
was abandoned by the continue-to-peers jump) with current tail `last`;
`finished r` is a `return` out of the whole task. -/
inductive StreamRes where
  | next (last : Beacon)
  | finished (r : SyncResult)
  deriving DecidableEq

variable {K P : Type}

/-- The inner `while let Ok(Some(p)) = stream.message()` loop of
`DefaultSyncer::process_follow_request` (sync.rs lines 213-272) for one
peer stream.  Arguments: remaining stream messages, current
`last_stored`, number of progress sends attempted so far.  Returns the
packets persisted from this stream (in order), the updated send
counter, and how the loop ended.  The checks appear in source order:
metadata presence, beacon id, round, signature deserialization,
signature verification; each failure abandons the peer.  After a
persist the progress send is attempted; a failed send returns `Ok(())`,
then reaching the target returns `Ok(())`. -/
def processStream (c : FollowCtx K P) :
    List BeaconPacket → Beacon → Nat → List BeaconPacket × Nat × StreamRes
  | [], last, sends => ([], sends, .next last)
  | p :: rest, last, sends =>
    match p.metadata with
    | none => ([], sends, .next last)
    | some m =>
      if m.beacon_id ≠ c.beacon_id then ([], sends, .next last)
      else if p.round ≠ last.round + 1 then ([], sends, .next last)
      else
        match c.deser p.signature with
        | none => ([], sends, .next last)
        | some s =>
          if c.isValid c.public_key last.signature p.round s then
            if c.sendOk sends = false then ([p], sends + 1, .finished .ok)
            else if p.round = c.target then ([p], sends + 1, .finished .ok)
            else
              let out := processStream c rest (Beacon.fromPacket p) (sends + 1)
              (p :: out.1, out.2.1, out.2.2)
          else ([], sends, .next last)

/-- The outer labelled peers loop (`for peer in &self.peers`) of
`process_follow_request` (sync.rs lines 189-285), including the
`InvalidTarget` guard at the top of each iteration and the final
`TriedAllPers` check after peer exhaustion.  Store `put` calls are
recorded as the packet trace. -/
def processPeers (c : FollowCtx K P) :
    List PeerConn → Beacon → Nat → List BeaconPacket × SyncResult
  | [], last, _ =>
    ([], if last.round = c.target then .ok else .err (.TriedAllPers last.round))
  | peer :: rest, last, sends =>
    if c.target < last.round + 1 then
      ([], .err (.InvalidTarget (last.round + 1) c.target))
    else
      match peer with
      | none => processPeers c rest last sends
      | some msgs =>
        let out := processStream c msgs last sends
        match out.2.2 with
        | .finished r => (out.1, r)
        | .next last2 =>
          let out2 := processPeers c rest last2 out.2.1
          (out.1 ++ out2.1, out2.2)

/-- `DefaultSyncer::process_follow_request` (sync.rs lines 168-287):
`last0` is the beacon returned by `store.last()`.  If the stored tail
already reaches the target the request is a no-op success (lines
177-180); otherwise the peer loop runs.  Returns the trace of persisted
packets and the task result. -/
def process_follow_request (c : FollowCtx K P) (peers : List PeerConn)
    (last0 : Beacon) : List BeaconPacket × SyncResult :=
  if c.target ≤ last0.round then ([], .ok)
  else processPeers c peers last0 0

/-- The beacons passed to `store.put`, in call order, for a given trace
of persisted packets (line 244-245: `put(B::from_packet(p))`). -/
def putCalls (tr : List BeaconPacket) : List Beacon :=
  tr.map Beacon.fromPacket

/-- The four per-beacon checks of `process_follow_request`
(steps 4a-4d of the spec), in source order, for a packet `p` arriving
while the stored tail is `prev`: metadata present with matching beacon
id, round equal to tail + 1, signature bytes deserializing, and the
signature verifying against the public key, the previous stored
signature and the round. -/
def checksPass (c : FollowCtx K P) (prev : Beacon) (p : BeaconPacket) : Bool :=
  match p.metadata with
  | none => false
  | some m =>
    if m.beacon_id ≠ c.beacon_id then false
    else if p.round ≠ prev.round + 1 then false
    else
      match c.deser p.signature with
      | none => false
      | some s => c.isValid c.public_key prev.signature p.round s

/-- A packet trace is a valid chain extension of `prev` when every
packet passes all four checks against the running tail. -/
def packetsChainOK (c : FollowCtx K P) : Beacon → List BeaconPacket → Bool
  | _, [] => true
  | prev, p :: rest => checksPass c prev p && packetsChainOK c (Beacon.fromPacket p) rest

/-- The stored tail after persisting a packet trace on top of `prev`. -/
def chainEndP (prev : Beacon) : List BeaconPacket → Beacon
  | [] => prev
  | p :: rest => chainEndP (Beacon.fromPacket p) rest

/-! ## Resync driver (`resync`, sync.rs lines 350-415) -/

/-- How the inner stream loop of `resync` ends. -/
inductive ReStreamRes where
  | next
  | finished (r : SyncResult)
  deriving DecidableEq

/-- The inner `while let` loop of `resync` (sync.rs lines 385-408) for
one peer stream.  Arguments: remaining stream messages, current
`last_sent`, number of sends attempted on `tx_synced` so far.  Returns
the packets forwarded on `tx_synced` (in order), the updated
`last_sent`, the updated send counter and how the loop ended.  The
source checks only metadata presence, beacon id and round before
sending; a failed send is `SyncClosedTx`, reaching `up_to` is
success. -/
def resyncStream (id : String) (upTo : Nat) (sendOk : Nat → Bool) :
    List BeaconPacket → Nat → Nat → List BeaconPacket × Nat × Nat × ReStreamRes
  | [], last, sends => ([], last, sends, .next)
  | p :: rest, last, sends =>
    match p.metadata with
    | none => ([], last, sends, .next)
    | some m =>
      if m.beacon_id ≠ id then ([], last, sends, .next)
      else if p.round ≠ last + 1 then ([], last, sends, .next)
      else if sendOk sends = false then
        ([], last, sends, .finished (.err .SyncClosedTx))
      else if last + 1 = upTo then ([p], last + 1, sends + 1, .finished .ok)
      else
        let out := resyncStream id upTo sendOk rest (last + 1) (sends + 1)
        (p :: out.1, out.2.1, out.2.2.1, out.2.2.2)

/-- The outer labelled peers loop (`for peer in peers`) of `resync` (sync.rs
lines 363-413), including the `InvalidTarget` guard per iteration and
the final `TriedAllPers` error after peer exhaustion. -/
def resyncPeers (id : String) (upTo : Nat) (sendOk : Nat → Bool) :
    List PeerConn → Nat → Nat → List BeaconPacket × SyncResult
  | [], last, _ => ([], .err (.TriedAllPers last))
  | peer :: rest, last, sends =>
    if upTo ≤ last then ([], .err (.InvalidTarget (last + 1) upTo))
    else
      match peer with
      | none => resyncPeers id upTo sendOk rest last sends
      | some msgs =>
        let out := resyncStream id upTo sendOk msgs last sends
        match out.2.2.2 with
        | .finished r => (out.1, r)
        | .next =>
          let out2 := resyncPeers id upTo sendOk rest out.2.1 out.2.2.1
          (out.1 ++ out2.1, out2.2)

/-- Wrapping-semantics (u64 release build) value of the initialization
`let mut last_sent = start_from - 1;` at sync.rs line 361. -/
def initLastSent (start_from : Nat) : Nat :=
  (start_from + (2 ^ 64 - 1)) % 2 ^ 64

/-- Checked-semantics (u64 debug build) value of `start_from - 1`:
`none` models the overflow panic. -/
def checkedInitLastSent (start_from : Nat) : Option Nat :=
  if start_from = 0 then none else some (start_from - 1)

/-- The `resync` task body (sync.rs lines 351-415) with the u64
initialization `last_sent = start_from - 1` taken with wrapping
semantics.  Returns the packets forwarded into the update pipeline and
the task result. -/
def resync (start_from upTo : Nat) (peers : List PeerConn) (id : String)
    (sendOk : Nat → Bool) : List BeaconPacket × SyncResult :=
  resyncPeers id upTo sendOk peers (initLastSent start_from) 0

/-! ## Chain info negotiator (`chain_info_from_peers`, lines 419-451) -/

/-- Protobuf `ChainInfoPacket` fields used by the sync module. -/
structure ChainInfoPacket where
  scheme_id : String
  group_hash : List Nat
  metadata : Option Metadata
  deriving DecidableEq

/-- Outcome of `chain_info_from_peers`,
`Result<ChainInfoPacket, SyncError>`. -/
inductive InfoOutcome where
  | ok (packet : ChainInfoPacket)
  | err (e : SyncError)
  deriving DecidableEq

/-- `chain_info_from_peers` (sync.rs lines 419-451).  The network is
modelled by `respond : String → Option ChainInfoPacket`: `none` covers
a connect failure of `PublicClient::new` or an `Err` from
`client.chain_info`, `some packet` a received packet.  Peers whose
packet has no metadata or a mismatched beacon id are skipped; the first
match is returned; exhaustion is `FailedInfoFromAllPeers`. -/
def chain_info_from_peers (respond : String → Option ChainInfoPacket)
    (beacon_id : String) : List String → InfoOutcome
  | [] => .err .FailedInfoFromAllPeers
  | peer :: rest =>
    match respond peer with
    | none => chain_info_from_peers respond beacon_id rest
    | some packet =>
      match packet.metadata with
      | some m =>
        if m.beacon_id = beacon_id then .ok packet
        else chain_info_from_peers respond beacon_id rest
      | none => chain_info_from_peers respond beacon_id rest

/-- Spec-side acceptance test for one peer: the packet is accepted
exactly when a packet was obtained and its embedded beacon id equals
the requested one.  Used to state that `chain_info_from_peers` returns
the first acceptable packet in peer order. -/
def acceptableInfo (respond : String → Option ChainInfoPacket)
    (beacon_id : String) (peer : String) : Option ChainInfoPacket :=
  match respond peer with
  | none => none
  | some packet =>
    match packet.metadata with
    | some m => if m.beacon_id = beacon_id then some packet else none
    | none => none

/-! ## Bootstrap (`start_follow_chain`, sync.rs lines 290-348) -/

/-- Lowercase hex digit, as produced by `hex::encode`. -/
def hexDigit (n : Nat) : Char :=
  if n < 10 then Char.ofNat (48 + n) else Char.ofNat (87 + n)

/-- Two lowercase hex digits of one byte. -/
def hexByte (b : Nat) : List Char :=
  [hexDigit (b / 16 % 16), hexDigit (b % 16)]

/-- `hex::encode` of a byte string. -/
def hexEncode (bs : List Nat) : String :=
  ⟨bs.foldr (fun b acc => hexByte b ++ acc) []⟩

/-- The diagnostic string built at sync.rs lines 329-333:
`format!("rcv({}) != bp({})", hex::encode(hash), hex::encode(&packet.group_hash))`.
It is a function of the derived hash and the packet group hash. -/
def mismatchDetails (rcv bp : List Nat) : String :=
  "rcv(" ++ hexEncode rcv ++ ") != bp(" ++ hexEncode bp ++ ")"

/-- `StartSyncRequest` fields used by `start_follow_chain`. -/
structure StartSyncRequest where
  nodes : List String
  up_to : Nat
  metadata : Option Metadata
  deriving DecidableEq

/-- `DefaultSyncerConfig` as built by `start_follow_chain` (the store
and the tracing span are omitted). -/
structure SyncerConfig where
  packet : ChainInfoPacket
  beacon_id : String
  peers : List String
  deriving DecidableEq

/-- Outcome of `start_follow_chain`; `panicked` models the
`.expect("metadata is already checked")` on an absent request
metadata. -/
inductive StartOutcome where
  | ok (cfg : SyncerConfig)
  | err (e : SyncError)
  | panicked
  deriving DecidableEq

/-- `start_follow_chain` (sync.rs lines 290-348).  External
collaborators are parameters: `precheck` is `Address::precheck`
(`none` = invalid address), `shuffle` is the random permutation applied
to the valid peers, `respond` is the chain-info network behaviour,
`hashPacket` is `info::hash_packet`, and `genesisOk` is the success of
`store.check_genesis` on the packet group hash (its failure maps to a
store error).  Invalid addresses are skipped; an empty valid-peer list
is `PeersInvalidFormat`; then chain info is negotiated, the derived
hash is compared against the request metadata chain hash, and genesis
is checked. -/
def start_follow_chain (precheck : String → Option String)
    (shuffle : List String → List String)
    (respond : String → Option ChainInfoPacket)
    (hashPacket : ChainInfoPacket → String → List Nat)
    (genesisOk : List Nat → Bool)
    (req : StartSyncRequest) (beacon_id : String) : StartOutcome :=
  let peers := req.nodes.filterMap precheck
  if peers.isEmpty then .err .PeersInvalidFormat
  else
    let peers := shuffle peers
    match chain_info_from_peers respond beacon_id peers with
    | .err e => .err e
    | .ok packet =>
      let hash := hashPacket packet beacon_id
      match req.metadata with
      | none => .panicked
      | some m =>
        if hash ≠ m.chain_hash then
          .err (.ChainHashMismatch (mismatchDetails hash packet.group_hash))
        else if genesisOk packet.group_hash then
          .ok { packet := packet, beacon_id := beacon_id, peers := peers }
        else .err .ChainStore

/-! ## Resync liveness monitor (`HandleReSync`, sync.rs lines 37-112) -/

/-- `RESYNC_EXPIRY_FACTOR` (sync.rs line 38). -/
def RESYNC_EXPIRY_FACTOR : Nat := 2

/-- The expiry window computed in `HandleReSync::new` (line 93):
`Duration::from_secs(period * RESYNC_EXPIRY_FACTOR)`, in seconds. -/
def resyncExpiry (period : Nat) : Nat :=
  period * RESYNC_EXPIRY_FACTOR

/-- `HandleReSync::is_running` (sync.rs lines 100-106): `finished` is
`self.handle.is_finished()`, `elapsed` the wall-clock time since
`latest_received`, `expiry` the window of `HandleReSync::new`. -/
def is_running (finished : Bool) (elapsed expiry : Nat) : Bool :=
  if finished then false else decide (elapsed < expiry)

/-! ## Invariants of the follow syncer loops -/

variable {K P : Type}

/-- A packet that passes all four checks has the successor round of the
current tail. -/
theorem round_of_checksPass {c : FollowCtx K P} {prev : Beacon}
    {p : BeaconPacket} (h : checksPass c prev p = true) :
    p.round = prev.round + 1 := by
  by_cases hrnd : p.round = prev.round + 1
  · exact hrnd
  · exfalso
    cases hm : p.metadata with
    | none => simp [checksPass, hm] at h
    | some m => simp [checksPass, hm, hrnd] at h

/-- One step of the stream loop, phrased through `checksPass`: the five
sequential source checks persist the packet exactly when all of them
pass, and any failure abandons the peer. -/
theorem processStream_cons (c : FollowCtx K P) (p : BeaconPacket)
    (rest : List BeaconPacket) (last : Beacon) (sends : Nat) :
    processStream c (p :: rest) last sends =
      if checksPass c last p then
        if c.sendOk sends = false then ([p], sends + 1, .finished .ok)
        else if p.round = c.target then ([p], sends + 1, .finished .ok)
        else
          let out := processStream c rest (Beacon.fromPacket p) (sends + 1)
          (p :: out.1, out.2.1, out.2.2)
      else ([], sends, .next last) := by
  simp only [processStream, checksPass]
  cases hm : p.metadata with
  | none => simp
  | some m =>
    by_cases hid : m.beacon_id ≠ c.beacon_id
    · simp [hid]
    · by_cases hrnd : p.round ≠ last.round + 1
      · simp [hid, hrnd]
      · cases hdeser : c.deser p.signature with
        | none => simp [hid, hrnd, hdeser]
        | some s =>
          cases hvalid : c.isValid c.public_key last.signature p.round s with
          | false => simp [hid, hrnd, hdeser, hvalid]
          | true => simp [hid, hrnd, hdeser, hvalid]

/-- Invariants of the inner stream loop: the persisted trace is a valid
chain extension of the entry tail, its rounds are the contiguous range
starting at tail + 1, the send counter advances once per persist, a
`next` outcome carries the chained tail, the chained tail round is the
entry tail round plus the trace length, and below the target the trace
never passes the target. -/
theorem processStream_inv (c : FollowCtx K P) (msgs : List BeaconPacket) :
    ∀ (last : Beacon) (sends : Nat),
      packetsChainOK c last (processStream c msgs last sends).1 = true
      ∧ (processStream c msgs last sends).1.map BeaconPacket.round
          = List.range' (last.round + 1) (processStream c msgs last sends).1.length
      ∧ (processStream c msgs last sends).2.1
          = sends + (processStream c msgs last sends).1.length
      ∧ (∀ l2, (processStream c msgs last sends).2.2 = .next l2 →
          l2 = chainEndP last (processStream c msgs last sends).1)
      ∧ (chainEndP last (processStream c msgs last sends).1).round
          = last.round + (processStream c msgs last sends).1.length
      ∧ (last.round < c.target →
          last.round + (processStream c msgs last sends).1.length ≤ c.target
          ∧ ∀ l2, (processStream c msgs last sends).2.2 = .next l2 →
              l2.round < c.target) := by
  induction msgs with
  | nil =>
    intro last sends
    refine ⟨by simp [processStream, packetsChainOK], by simp [processStream],
      by simp [processStream], ?_, by simp [processStream, chainEndP], ?_⟩
    · intro l2 h
      simp only [processStream] at h
      cases h
      simp [processStream, chainEndP]
    · intro hlt
      refine ⟨by simp [processStream]; omega, ?_⟩
      intro l2 h
      simp only [processStream] at h
      cases h
      exact hlt
  | cons p rest ih =>
    intro last sends
    rw [processStream_cons]
    by_cases hcp : checksPass c last p = true
    · have hrnd : p.round = last.round + 1 := round_of_checksPass hcp
      rw [if_pos hcp]
      cases hsend : c.sendOk sends with
      | false =>
        rw [if_pos rfl]
        refine ⟨by simp [packetsChainOK, hcp], ?_, rfl, by simp,
          by simp [chainEndP, Beacon.fromPacket, hrnd], ?_⟩
        · simp [List.range'_one, hrnd]
        · intro hlt
          exact ⟨by simp only [List.length_singleton]; omega, by simp⟩
      | true =>
        rw [if_neg (by simp : ¬ (true = false))]
        by_cases htgt : p.round = c.target
        · rw [if_pos htgt]
          refine ⟨by simp [packetsChainOK, hcp], ?_, rfl, by simp,
            by simp [chainEndP, Beacon.fromPacket, hrnd], ?_⟩
          · simp [List.range'_one, hrnd]
          · intro hlt
            exact ⟨by simp only [List.length_singleton]; omega, by simp⟩
        · rw [if_neg htgt]
          obtain ⟨ih1, ih2, ih3, ih4, ih5, ih6⟩ := ih (Beacon.fromPacket p) (sends + 1)
          have hfp : (Beacon.fromPacket p).round = p.round := rfl
          refine ⟨?_, ?_, ?_, ?_, ?_, ?_⟩
          · simp [packetsChainOK, hcp, ih1]
          · simp only [List.map_cons, List.length_cons, List.range'_succ]
            rw [ih2, hfp, hrnd]
          · simp only [List.length_cons]
            omega
          · intro l2 h
            simp only at h
            simp only [chainEndP]
            exact ih4 l2 h
          · simp only [chainEndP, List.length_cons]
            rw [ih5, hfp]
            omega
          · intro hlt
            have hplt : (Beacon.fromPacket p).round < c.target := by
              rw [hfp]; omega
            obtain ⟨hcap, hnext⟩ := ih6 hplt
            refine ⟨?_, ?_⟩
            · simp only [List.length_cons]
              rw [hfp, hrnd] at hcap
              omega
            · intro l2 h
              simp only at h
              exact hnext l2 h
    · rw [if_neg hcp]
      refine ⟨by simp [packetsChainOK], by simp, by simp, ?_,
        by simp [chainEndP], ?_⟩
      · intro l2 h
        cases h
        simp [chainEndP]
      · intro hlt
        refine ⟨by simp; omega, ?_⟩
        intro l2 h
        cases h
        exact hlt

/-- Concatenation of two adjacent contiguous ranges with step one. -/
theorem range'_append_one (s a b : Nat) :
    List.range' s a ++ List.range' (s + a) b = List.range' s (a + b) := by
  have h := List.range'_append s a b 1
  rw [one_mul] at h
  rw [h, Nat.add_comm]

/-- Chain validity splits over an appended trace at the chained tail. -/
theorem packetsChainOK_append (c : FollowCtx K P) (ps qs : List BeaconPacket) :
    ∀ prev, packetsChainOK c prev (ps ++ qs)
      = (packetsChainOK c prev ps
          && packetsChainOK c (chainEndP prev ps) qs) := by
  induction ps with
  | nil => intro prev; simp [packetsChainOK, chainEndP]
  | cons p rest ih =>
    intro prev
    simp [packetsChainOK, chainEndP, ih, Bool.and_assoc]

/-- Invariants of the outer peer loop: the full put trace is a valid
chain extension of the entry tail, its rounds are the contiguous range
starting at tail + 1, and below the target the trace never passes the
target. -/
theorem processPeers_inv (c : FollowCtx K P) (peers : List PeerConn) :
    ∀ (last : Beacon) (sends : Nat),
      packetsChainOK c last (processPeers c peers last sends).1 = true
      ∧ (processPeers c peers last sends).1.map BeaconPacket.round
          = List.range' (last.round + 1) (processPeers c peers last sends).1.length
      ∧ (last.round < c.target →
          last.round + (processPeers c peers last sends).1.length ≤ c.target) := by
  induction peers with
  | nil =>
    intro last sends
    simp only [processPeers]
    refine ⟨by simp [packetsChainOK], by simp, ?_⟩
    simp only [List.length_nil]
    omega
  | cons peer rest ih =>
    intro last sends
    simp only [processPeers]
    by_cases hguard : c.target < last.round + 1
    · rw [if_pos hguard]
      refine ⟨by simp [packetsChainOK], by simp, ?_⟩
      simp only [List.length_nil]
      omega
    · rw [if_neg hguard]
      have hlt : last.round < c.target := by omega
      cases peer with
      | none => exact ih last sends
      | some msgs =>
        obtain ⟨s1, s2, s3, s4, s5, s6⟩ := processStream_inv c msgs last sends
        cases hres : (processStream c msgs last sends).2.2 with
        | finished r =>
          simp only [hres]
          exact ⟨s1, s2, fun _ => (s6 hlt).1⟩
        | next l2 =>
          simp only [hres]
          obtain ⟨p1, p2, p3⟩ := ih l2 (processStream c msgs last sends).2.1
          have hl2 : l2 = chainEndP last (processStream c msgs last sends).1 :=
            s4 l2 hres
          have hl2r : l2.round
              = last.round + (processStream c msgs last sends).1.length := by
            rw [hl2]; exact s5
          have hl2lt : l2.round < c.target := (s6 hlt).2 l2 hres
          refine ⟨?_, ?_, ?_⟩
          · rw [packetsChainOK_append, s1, ← hl2, p1]
            rfl
          · rw [List.map_append, s2, p2, hl2r, List.length_append,
              Nat.add_right_comm last.round
                (processStream c msgs last sends).1.length 1]
            have h := List.range'_append (last.round + 1)
              (processStream c msgs last sends).1.length
              (processPeers c rest l2 (processStream c msgs last sends).2.1).1.length 1
            rw [one_mul] at h
            rw [h]
            congr 1
            omega
          · intro _
            have hcap := p3 hl2lt
            rw [List.length_append]
            omega

/-! ## Claims about the follow syncer -/

/-- Claim C1: in `DefaultSyncer::process_follow_request`, `store.put` is
invoked on a beacon only if all four checks pass in order — metadata
present with matching beacon identifier, round equal to stored tail + 1,
signature bytes deserializing to a valid curve point, and the signature
verifying against the public key, the previous stored signature and the
round — so no beacon failing any of these checks is ever persisted,
regardless of which peer supplied it: the trace of packets passed to
`store.put` (as `Beacon.fromPacket`) is always a `packetsChainOK`
extension of the stored tail. -/
theorem claim_C1_put_only_after_all_checks {K P : Type} (c : FollowCtx K P)
    (peers : List PeerConn) (last0 : Beacon) :
    packetsChainOK c last0 (process_follow_request c peers last0).1 = true := by
  unfold process_follow_request
  by_cases h : c.target ≤ last0.round
  · rw [if_pos h]
    rfl
  · rw [if_neg h]
    exact (processPeers_inv c peers last0 0).1

/-- Claim C3: over any run of the follow syncer, the sequence of rounds
appended to the store is exactly the contiguous integer range starting
at the prior tail + 1, with no gaps and no duplicates, and it never goes
past the target; the third conjunct identifies the rounds of the
beacons passed to `store.put` with the rounds of the traced packets. -/
theorem claim_C3_stored_rounds_contiguous {K P : Type} (c : FollowCtx K P)
    (peers : List PeerConn) (last0 : Beacon) :
    (process_follow_request c peers last0).1.map BeaconPacket.round
      = List.range' (last0.round + 1)
          (process_follow_request c peers last0).1.length
    ∧ last0.round + (process_follow_request c peers last0).1.length
        ≤ max last0.round c.target
    ∧ (putCalls (process_follow_request c peers last0).1).map Beacon.round
        = (process_follow_request c peers last0).1.map BeaconPacket.round := by
  unfold process_follow_request
  by_cases h : c.target ≤ last0.round
  · rw [if_pos h]
    exact ⟨rfl, by simp, rfl⟩
  · rw [if_neg h]
    obtain ⟨_, p2, p3⟩ := processPeers_inv c peers last0 0
    refine ⟨p2, ?_, ?_⟩
    · have := p3 (by omega)
      omega
    · simp only [putCalls, List.map_map]
      rfl

/-- Claim C4: whenever the target round is less than tail + 1 at the
evaluation point at the top of the peer loop, the session fails with
`InvalidTarget` carrying `from = tail + 1` and the attempted target;
together with step 1, a target at or below the initial stored tail is a
no-op success. -/
theorem claim_C4_invalid_target {K P : Type} (c : FollowCtx K P)
    (peers : List PeerConn) (last0 : Beacon) :
    (c.target ≤ last0.round → process_follow_request c peers last0 = ([], .ok))
    ∧ (∀ (peer : PeerConn) (rest : List PeerConn) (last : Beacon) (sends : Nat),
        c.target < last.round + 1 →
        processPeers c (peer :: rest) last sends
          = ([], .err (.InvalidTarget (last.round + 1) c.target))) := by
  constructor
  · intro h
    unfold process_follow_request
    rw [if_pos h]
  · intro peer rest last sends h
    simp only [processPeers]
    rw [if_pos h]

/-- The concrete scheme instance used by witnesses: every byte string
deserializes and every signature verifies. -/
def acceptAllCtx : FollowCtx Unit Unit :=
  { deser := fun _ => some (), isValid := fun _ _ _ _ => true,
    public_key := (), beacon_id := "a", target := 3, sendOk := fun _ => true }

/-- A beacon packet for round `r` under beacon id `"a"`. -/
def pktA (r : Nat) : BeaconPacket :=
  { round := r, signature := [r], metadata := some ⟨"a", []⟩ }

theorem claim_C4_invalid_target_witness :
    ((3 : Nat) ≤ (5 : Nat)
      ∧ process_follow_request acceptAllCtx [] ⟨5, []⟩ = ([], .ok))
    ∧ ((3 : Nat) < (5 : Nat) + 1
      ∧ processPeers acceptAllCtx [none] ⟨5, []⟩ 0
          = ([], .err (.InvalidTarget 6 3))) :=
  ⟨⟨by decide,
    (claim_C4_invalid_target acceptAllCtx [] ⟨5, []⟩).1 (by decide)⟩,
   ⟨by decide,
    (claim_C4_invalid_target acceptAllCtx [none] ⟨5, []⟩).2 none [] ⟨5, []⟩ 0
      (by decide)⟩⟩

/-- Send-counter cap for the stream loop when the progress receiver is
dropped after `k` successful sends: at most `k + 1 - sends` further
persists happen, and if the bound is hit the loop has returned
`Ok(())`. -/
theorem processStream_sendCap {K P : Type} (c : FollowCtx K P) (k : Nat)
    (hk : ∀ n, c.sendOk n = decide (n < k)) (msgs : List BeaconPacket) :
    ∀ (last : Beacon) (sends : Nat), sends ≤ k →
      sends + (processStream c msgs last sends).1.length ≤ k + 1
      ∧ (sends + (processStream c msgs last sends).1.length = k + 1 →
          (processStream c msgs last sends).2.2 = .finished .ok) := by
  induction msgs with
  | nil =>
    intro last sends hs
    simp only [processStream, List.length_nil]
    exact ⟨by omega, by omega⟩
  | cons p rest ih =>
    intro last sends hs
    rw [processStream_cons]
    by_cases hcp : checksPass c last p = true
    · rw [if_pos hcp]
      by_cases hdrop : c.sendOk sends = false
      · rw [if_pos hdrop]
        have hnk : ¬ sends < k := by
          have h := hk sends
          rw [hdrop] at h
          exact of_decide_eq_false h.symm
        refine ⟨?_, fun _ => rfl⟩
        simp only [List.length_singleton]
        omega
      · rw [if_neg hdrop]
        have hlt : sends < k := by
          have h := hk sends
          by_contra hnot
          rw [decide_eq_false hnot] at h
          exact hdrop h
        by_cases htgt : p.round = c.target
        · rw [if_pos htgt]
          refine ⟨?_, fun _ => rfl⟩
          simp only [List.length_singleton]
          omega
        · rw [if_neg htgt]
          obtain ⟨ih1, ih2⟩ := ih (Beacon.fromPacket p) (sends + 1) (by omega)
          simp only [List.length_cons]
          refine ⟨by omega, ?_⟩
          intro he
          exact ih2 (by omega)
    · rw [if_neg hcp]
      simp only [List.length_nil]
      exact ⟨by omega, by omega⟩

/-- Send-counter cap for the peer loop: at most `k + 1 - sends` persists
happen in total, and if the bound is hit the session result is
`Ok(())`. -/
theorem processPeers_sendCap {K P : Type} (c : FollowCtx K P) (k : Nat)
    (hk : ∀ n, c.sendOk n = decide (n < k)) (peers : List PeerConn) :
    ∀ (last : Beacon) (sends : Nat), sends ≤ k →
      sends + (processPeers c peers last sends).1.length ≤ k + 1
      ∧ (sends + (processPeers c peers last sends).1.length = k + 1 →
          (processPeers c peers last sends).2 = .ok) := by
  induction peers with
  | nil =>
    intro last sends hs
    simp only [processPeers, List.length_nil]
    exact ⟨by omega, by omega⟩
  | cons peer rest ih =>
    intro last sends hs
    simp only [processPeers]
    by_cases hguard : c.target < last.round + 1
    · rw [if_pos hguard]
      simp only [List.length_nil]
      exact ⟨by omega, by omega⟩
    · rw [if_neg hguard]
      cases peer with
      | none => exact ih last sends hs
      | some msgs =>
        obtain ⟨c1, c2⟩ := processStream_sendCap c k hk msgs last sends hs
        have s3 := (processStream_inv c msgs last sends).2.2.1
        cases hres : (processStream c msgs last sends).2.2 with
        | finished r =>
          simp only [hres]
          refine ⟨c1, ?_⟩
          intro he
          have h2 := c2 he
          rw [hres] at h2
          cases h2
          rfl
        | next l2 =>
          simp only [hres]
          have hne : sends + (processStream c msgs last sends).1.length ≠ k + 1 := by
            intro he
            have h2 := c2 he
            rw [hres] at h2
            cases h2
          rw [List.length_append, s3]
          obtain ⟨d1, d2⟩ := ih l2
            (sends + (processStream c msgs last sends).1.length) (by omega)
          exact ⟨by omega, fun he => d2 (by omega)⟩

/-- Claim C5: if the progress-channel receiver has been dropped so that
only the first `k` sends succeed, then at most `k + 1` beacons are ever
persisted (the `k + 1`-st persist is the one whose progress send fails),
and whenever that bound is reached the session stops immediately with
`Ok`, not an error. -/
theorem claim_C5_dropped_receiver_is_success {K P : Type} (c : FollowCtx K P)
    (peers : List PeerConn) (last0 : Beacon) (k : Nat)
    (hk : ∀ n, c.sendOk n = decide (n < k)) :
    (process_follow_request c peers last0).1.length ≤ k + 1
    ∧ ((process_follow_request c peers last0).1.length = k + 1 →
        (process_follow_request c peers last0).2 = .ok) := by
  unfold process_follow_request
  by_cases h : c.target ≤ last0.round
  · rw [if_pos h]
    simp only [List.length_nil]
    exact ⟨by omega, by omega⟩
  · rw [if_neg h]
    obtain ⟨c1, c2⟩ := processPeers_sendCap c k hk peers last0 0 (by omega)
    exact ⟨by omega, fun he => c2 (by omega)⟩

/-- The receiver-dropped context: only `k = 1` send succeeds, target 3,
all signatures accepted. -/
def dropAfter1Ctx : FollowCtx Unit Unit :=
  { acceptAllCtx with sendOk := fun n => decide (n < 1) }

theorem claim_C5_dropped_receiver_is_success_witness :
    (process_follow_request dropAfter1Ctx
        [some [pktA 1, pktA 2, pktA 3]] ⟨0, []⟩).1.length = 2
    ∧ (process_follow_request dropAfter1Ctx
        [some [pktA 1, pktA 2, pktA 3]] ⟨0, []⟩).2 = .ok :=
  ⟨by decide,
   (claim_C5_dropped_receiver_is_success dropAfter1Ctx
      [some [pktA 1, pktA 2, pktA 3]] ⟨0, []⟩ 1 (fun _ => rfl)).2 (by decide)⟩

/-! ## Invariants of the resync loops -/

/-- The structural checks applied by `resync` before forwarding a
packet (sync.rs lines 386-397): metadata present with matching beacon
id, and round equal to `last_sent + 1`.  These are the only checks
`resync` performs. -/
def reChecksPass (id : String) (last : Nat) (p : BeaconPacket) : Bool :=
  match p.metadata with
  | none => false
  | some m =>
    if m.beacon_id ≠ id then false
    else if p.round ≠ last + 1 then false
    else true

/-- A packet passing the resync structural checks has the successor
round and matching metadata. -/
theorem of_reChecksPass {id : String} {last : Nat} {p : BeaconPacket}
    (h : reChecksPass id last p = true) :
    p.round = last + 1 ∧ ∃ m, p.metadata = some m ∧ m.beacon_id = id := by
  cases hm : p.metadata with
  | none => simp [reChecksPass, hm] at h
  | some m =>
    by_cases hid : m.beacon_id = id
    · by_cases hrnd : p.round = last + 1
      · exact ⟨hrnd, m, rfl, hid⟩
      · exfalso
        simp [reChecksPass, hm, hid, hrnd] at h
    · simp [reChecksPass, hm, hid] at h

/-- One step of the resync stream loop, phrased through
`reChecksPass`. -/
theorem resyncStream_cons (id : String) (upTo : Nat) (sendOk : Nat → Bool)
    (p : BeaconPacket) (rest : List BeaconPacket) (last sends : Nat) :
    resyncStream id upTo sendOk (p :: rest) last sends =
      if reChecksPass id last p then
        if sendOk sends = false then
          ([], last, sends, .finished (.err .SyncClosedTx))
        else if last + 1 = upTo then ([p], last + 1, sends + 1, .finished .ok)
        else
          let out := resyncStream id upTo sendOk rest (last + 1) (sends + 1)
          (p :: out.1, out.2.1, out.2.2.1, out.2.2.2)
      else ([], last, sends, .next) := by
  simp only [resyncStream, reChecksPass]
  cases hm : p.metadata with
  | none => simp
  | some m =>
    by_cases hid : m.beacon_id ≠ id
    · simp [hid]
    · by_cases hrnd : p.round ≠ last + 1
      · simp [hid, hrnd]
      · simp [hid, hrnd]

/-- Invariants of the inner resync stream loop: the forwarded trace has
contiguous rounds starting at `last_sent + 1`, `last_sent` advances once
per forwarded packet, and every forwarded packet carries metadata with
the matching beacon id. -/
theorem resyncStream_inv (id : String) (upTo : Nat) (sendOk : Nat → Bool)
    (msgs : List BeaconPacket) :
    ∀ (last sends : Nat),
      (resyncStream id upTo sendOk msgs last sends).1.map BeaconPacket.round
        = List.range' (last + 1)
            (resyncStream id upTo sendOk msgs last sends).1.length
      ∧ (resyncStream id upTo sendOk msgs last sends).2.1
          = last + (resyncStream id upTo sendOk msgs last sends).1.length
      ∧ ∀ p ∈ (resyncStream id upTo sendOk msgs last sends).1,
          ∃ m, p.metadata = some m ∧ m.beacon_id = id := by
  induction msgs with
  | nil =>
    intro last sends
    simp [resyncStream]
  | cons p rest ih =>
    intro last sends
    rw [resyncStream_cons]
    by_cases hcp : reChecksPass id last p = true
    · obtain ⟨hr, m, hm, hmid⟩ := of_reChecksPass hcp
      rw [if_pos hcp]
      by_cases hdrop : sendOk sends = false
      · rw [if_pos hdrop]
        simp
      · rw [if_neg hdrop]
        by_cases htgt : last + 1 = upTo
        · rw [if_pos htgt]
          refine ⟨?_, rfl, ?_⟩
          · simp [List.range'_one, hr]
          · intro q hq
            simp only [List.mem_singleton] at hq
            subst hq
            exact ⟨m, hm, hmid⟩
        · rw [if_neg htgt]
          obtain ⟨ih1, ih2, ih3⟩ := ih (last + 1) (sends + 1)
          refine ⟨?_, ?_, ?_⟩
          · simp only [List.map_cons, List.length_cons, List.range'_succ]
            rw [ih1, hr]
          · simp only [List.length_cons]
            omega
          · intro q hq
            simp only [List.mem_cons] at hq
            rcases hq with hq | hq
            · subst hq
              exact ⟨m, hm, hmid⟩
            · exact ih3 q hq
    · rw [if_neg hcp]
      simp

/-- Invariants of the outer resync peer loop: forwarded rounds are the
contiguous range starting at `last_sent + 1`, and every forwarded packet
carries metadata with the matching beacon id. -/
theorem resyncPeers_inv (id : String) (upTo : Nat) (sendOk : Nat → Bool)
    (peers : List PeerConn) :
    ∀ (last sends : Nat),
      (resyncPeers id upTo sendOk peers last sends).1.map BeaconPacket.round
        = List.range' (last + 1)
            (resyncPeers id upTo sendOk peers last sends).1.length
      ∧ ∀ p ∈ (resyncPeers id upTo sendOk peers last sends).1,
          ∃ m, p.metadata = some m ∧ m.beacon_id = id := by
  induction peers with
  | nil =>
    intro last sends
    simp [resyncPeers]
  | cons peer rest ih =>
    intro last sends
    simp only [resyncPeers]
    by_cases hguard : upTo ≤ last
    · rw [if_pos hguard]
      simp
    · rw [if_neg hguard]
      cases peer with
      | none => exact ih last sends
      | some msgs =>
        obtain ⟨s1, s2, s3⟩ := resyncStream_inv id upTo sendOk msgs last sends
        cases hres : (resyncStream id upTo sendOk msgs last sends).2.2.2 with
        | finished r =>
          simp only [hres]
          exact ⟨s1, s3⟩
        | next =>
          simp only [hres]
          obtain ⟨p1, p2⟩ := ih (resyncStream id upTo sendOk msgs last sends).2.1
            (resyncStream id upTo sendOk msgs last sends).2.2.1
          refine ⟨?_, ?_⟩
          · rw [List.map_append, s1, p1, s2, List.length_append,
              Nat.add_right_comm last
                (resyncStream id upTo sendOk msgs last sends).1.length 1,
              range'_append_one]
          · intro q hq
            rw [List.mem_append] at hq
            rcases hq with hq | hq
            · exact s3 q hq
            · exact p2 q hq

/-! ## Claims about the resync driver -/

/-- A deserializer under which no byte string is a valid curve point.
Since `resync` never consults the scheme, it forwards packets even under
this scheme. -/
def noPointDeser : List Nat → Option Unit := fun _ => none

/-- The single packet of the C2 counterexample: round 1, beacon id
`"a"`, with a signature that `noPointDeser` rejects. -/
def pktBadSig : BeaconPacket :=
  { round := 1, signature := [0], metadata := some ⟨"a", []⟩ }

/-- Claim C2 counterexample: `resync` forwards `pktBadSig` on
`tx_synced` and succeeds, although under the scheme `noPointDeser` the
signature bytes of that packet do not deserialize to a curve point, and
a fortiori no signature verification took place — refuting the claim
that every beacon sent on `tx_synced` passed checks 4c and 4d. -/
theorem claim_C2_counterexample :
    pktBadSig ∈ (resync 1 1 [some [pktBadSig]] "a" (fun _ => true)).1
    ∧ (resync 1 1 [some [pktBadSig]] "a" (fun _ => true)).2 = .ok
    ∧ noPointDeser pktBadSig.signature = none := by
  refine ⟨?_, ?_, rfl⟩ <;> decide

/-- Claim C2 amended: `resync` applies only the structural checks of
steps 4a and 4b before forwarding a beacon into the update pipeline —
for every packet it sends on `tx_synced`, the metadata is present with
matching beacon identifier and the round equals the last forwarded
round + 1 (so the forwarded rounds are the contiguous range starting at
`start_from`) — but it performs no signature deserialization and no
signature verification. -/
theorem claim_C2_resync_structural_checks_only
    (id : String) (upTo : Nat) (sendOk : Nat → Bool) (peers : List PeerConn)
    (start_from : Nat) (h1 : 1 ≤ start_from) (h2 : start_from < 2 ^ 64) :
    (resync start_from upTo peers id sendOk).1.map BeaconPacket.round
      = List.range' start_from
          (resync start_from upTo peers id sendOk).1.length
    ∧ ∀ p ∈ (resync start_from upTo peers id sendOk).1,
        ∃ m, p.metadata = some m ∧ m.beacon_id = id := by
  have hinit : initLastSent start_from = start_from - 1 := by
    unfold initLastSent
    have he : start_from + (2 ^ 64 - 1) = (start_from - 1) + 1 * 2 ^ 64 := by
      omega
    rw [he, Nat.add_mul_mod_self_right]
    exact Nat.mod_eq_of_lt (by omega)
  have hs : start_from - 1 + 1 = start_from := by omega
  unfold resync
  rw [hinit]
  obtain ⟨q1, q2⟩ := resyncPeers_inv id upTo sendOk peers (start_from - 1) 0
  rw [hs] at q1
  exact ⟨q1, q2⟩

theorem claim_C2_resync_structural_checks_only_witness :
    ((1 : Nat) ≤ 4 ∧ (4 : Nat) < 2 ^ 64)
    ∧ ((resync 4 6 [some [pktA 4, pktA 5, pktA 6]] "a" (fun _ => true)).1.map
          BeaconPacket.round
        = List.range' 4
            (resync 4 6 [some [pktA 4, pktA 5, pktA 6]] "a"
              (fun _ => true)).1.length
      ∧ ∀ p ∈ (resync 4 6 [some [pktA 4, pktA 5, pktA 6]] "a"
            (fun _ => true)).1,
          ∃ m, p.metadata = some m ∧ m.beacon_id = "a") :=
  ⟨⟨by decide, by norm_num⟩,
    claim_C2_resync_structural_checks_only "a" 6 (fun _ => true)
      [some [pktA 4, pktA 5, pktA 6]] 4 (by decide) (by norm_num)⟩

/-- Claim C10: `resync` starts `last_sent` as `start_from - 1` on a
u64, so `start_from = 0` underflows — wrapping to `2^64 - 1` under
wrapping semantics and panicking under checked semantics — while for
`start_from ≥ 1` the initialization is the ordinary `start_from - 1`,
and a call with an empty peer list forwards nothing and fails with
`TriedAllPers{last = start_from - 1}`. -/
theorem claim_C10_resync_underflow_and_empty_peers :
    initLastSent 0 = 2 ^ 64 - 1
    ∧ checkedInitLastSent 0 = none
    ∧ ∀ (start_from upTo : Nat) (id : String) (sendOk : Nat → Bool),
        1 ≤ start_from → start_from < 2 ^ 64 →
        initLastSent start_from = start_from - 1
        ∧ resync start_from upTo [] id sendOk
            = ([], .err (.TriedAllPers (start_from - 1))) := by
  refine ⟨?_, rfl, ?_⟩
  · unfold initLastSent
    rw [Nat.zero_add]
    exact Nat.mod_eq_of_lt (by norm_num)
  · intro start_from upTo id sendOk h1 h2
    have hinit : initLastSent start_from = start_from - 1 := by
      unfold initLastSent
      have he : start_from + (2 ^ 64 - 1) = (start_from - 1) + 1 * 2 ^ 64 := by
        omega
      rw [he, Nat.add_mul_mod_self_right]
      exact Nat.mod_eq_of_lt (by omega)
    refine ⟨hinit, ?_⟩
    unfold resync
    rw [hinit]
    rfl

theorem claim_C10_resync_underflow_and_empty_peers_witness :
    initLastSent 0 = 2 ^ 64 - 1
    ∧ checkedInitLastSent 0 = none
    ∧ ((1 : Nat) ≤ 7 ∧ (7 : Nat) < 2 ^ 64
      ∧ initLastSent 7 = 6
      ∧ resync 7 9 [] "a" (fun _ => true) = ([], .err (.TriedAllPers 6))) :=
  ⟨claim_C10_resync_underflow_and_empty_peers.1,
   claim_C10_resync_underflow_and_empty_peers.2.1,
   by decide, by norm_num,
   claim_C10_resync_underflow_and_empty_peers.2.2 7 9 "a" (fun _ => true)
     (by decide) (by norm_num)⟩

/-! ## Claims about the chain info negotiator and the bootstrap -/

/-- Claim C6: `chain_info_from_peers` returns the first packet obtained
by querying peers in order whose embedded beacon identifier equals the
requested one; peers that error or return a packet with missing or
mismatched identifier are skipped; if no peer yields an acceptable
packet it fails with `FailedInfoFromAllPeers`. -/
theorem claim_C6_chain_info_first_match
    (respond : String → Option ChainInfoPacket) (beacon_id : String)
    (peers : List String) :
    chain_info_from_peers respond beacon_id peers
      = match (peers.filterMap (acceptableInfo respond beacon_id)).head? with
        | some p => .ok p
        | none => .err .FailedInfoFromAllPeers := by
  induction peers with
  | nil => rfl
  | cons peer rest ih =>
    cases hr : respond peer with
    | none =>
      simp [chain_info_from_peers, acceptableInfo, List.filterMap_cons, hr, ih]
    | some packet =>
      cases hm : packet.metadata with
      | none =>
        simp [chain_info_from_peers, acceptableInfo, List.filterMap_cons,
          hr, hm, ih]
      | some m =>
        by_cases hid : m.beacon_id = beacon_id
        · simp [chain_info_from_peers, acceptableInfo, List.filterMap_cons,
            hr, hm, hid]
        · simp [chain_info_from_peers, acceptableInfo, List.filterMap_cons,
            hr, hm, hid, ih]

/-- The only error `chain_info_from_peers` can return is
`FailedInfoFromAllPeers`. -/
theorem chain_info_from_peers_err_eq
    (respond : String → Option ChainInfoPacket) (beacon_id : String) :
    ∀ (peers : List String) (e : SyncError),
      chain_info_from_peers respond beacon_id peers = .err e →
      e = .FailedInfoFromAllPeers := by
  intro peers
  induction peers with
  | nil =>
    intro e h
    simp only [chain_info_from_peers] at h
    cases h
    rfl
  | cons peer rest ih =>
    intro e h
    simp only [chain_info_from_peers] at h
    split at h
    · exact ih e h
    · split at h
      · split at h
        · cases h
        · exact ih e h
      · exact ih e h

/-- The chain-info packet of the C7 counterexample: its group hash is
`[2]`, distinct from both the derived hash `[3]` and the expected hash
`[1]`. -/
def pktC7 : ChainInfoPacket :=
  { scheme_id := "sid", group_hash := [2], metadata := some ⟨"b", []⟩ }

/-- Claim C7 counterexample: with derived hash `[3]`, expected request
hash `[1]` and packet group hash `[2]`, `start_follow_chain` fails with
a `ChainHashMismatch` whose diagnostic string is built from the derived
hash and the packet group hash; the hex encoding of the expected hash,
`"01"`, appears nowhere in that diagnostic (its characters never even
contain a `1`), so the diagnostic does not carry both hashes involved
in the comparison. -/
theorem claim_C7_counterexample :
    start_follow_chain (fun s => some s) (fun l => l) (fun _ => some pktC7)
        (fun _ _ => [3]) (fun _ => true)
        { nodes := ["n1"], up_to := 10, metadata := some ⟨"b", [1]⟩ } "b"
      = .err (.ChainHashMismatch (mismatchDetails [3] [2]))
    ∧ hexEncode [1] = "01"
    ∧ ((mismatchDetails [3] [2]).data.all fun ch => ch != '1') = true := by
  refine ⟨?_, ?_, ?_⟩ <;> decide

/-- Claim C7 amended: when the derived chain hash differs from the
expected hash of the request metadata, `start_follow_chain` fails with
`ChainHashMismatch` whose diagnostic is built from the derived hash and
the packet `group_hash` (not from the expected hash); when the hashes
are equal, no `ChainHashMismatch` is raised. -/
theorem claim_C7_hash_mismatch_diagnostic
    (precheck : String → Option String) (shuffle : List String → List String)
    (respond : String → Option ChainInfoPacket)
    (hashPacket : ChainInfoPacket → String → List Nat)
    (genesisOk : List Nat → Bool) (req : StartSyncRequest)
    (beacon_id : String) (m : Metadata) (packet : ChainInfoPacket)
    (hmeta : req.metadata = some m)
    (hpeers : (req.nodes.filterMap precheck).isEmpty = false)
    (hinfo : chain_info_from_peers respond beacon_id
        (shuffle (req.nodes.filterMap precheck)) = .ok packet) :
    (hashPacket packet beacon_id ≠ m.chain_hash →
      start_follow_chain precheck shuffle respond hashPacket genesisOk req
          beacon_id
        = .err (.ChainHashMismatch
            (mismatchDetails (hashPacket packet beacon_id) packet.group_hash)))
    ∧ (hashPacket packet beacon_id = m.chain_hash →
      ∀ s, start_follow_chain precheck shuffle respond hashPacket genesisOk req
          beacon_id
        ≠ .err (.ChainHashMismatch s)) := by
  have hred : start_follow_chain precheck shuffle respond hashPacket genesisOk
      req beacon_id
    = if hashPacket packet beacon_id ≠ m.chain_hash then
        .err (.ChainHashMismatch
          (mismatchDetails (hashPacket packet beacon_id) packet.group_hash))
      else if genesisOk packet.group_hash then
        .ok { packet := packet, beacon_id := beacon_id,
              peers := shuffle (req.nodes.filterMap precheck) }
      else .err .ChainStore := by
    simp only [start_follow_chain, hpeers]
    rw [if_neg Bool.false_ne_true]
    split
    · rename_i e heq
      rw [hinfo] at heq
      cases heq
    · rename_i packet2 heq
      rw [hinfo] at heq
      injection heq with heq2
      subst heq2
      split
      · rename_i heq3
        rw [hmeta] at heq3
        cases heq3
      · rename_i m2 heq3
        rw [hmeta] at heq3
        injection heq3 with heq4
        subst heq4
        rfl
  constructor
  · intro hne
    rw [hred, if_pos hne]
  · intro heq s
    rw [hred, if_neg (by simp [heq])]
    cases hgen : genesisOk packet.group_hash with
    | true => simp
    | false => simp

/-- The chain-info packet of the C8 counterexample. -/
def pktC8 : ChainInfoPacket :=
  { scheme_id := "sid", group_hash := [7], metadata := some ⟨"b", []⟩ }

/-- An address precheck accepting exactly the nonempty strings. -/
def precheckNonempty : String → Option String :=
  fun s => if s = "" then none else some s

/-- Claim C8 counterexample: a request containing the malformed address
`""` (rejected by the precheck) together with one valid address does not
fail: `start_follow_chain` skips the malformed address and completes
successfully, so a request containing an invalid peer address is not
surfaced as an immediate failure. -/
theorem claim_C8_counterexample :
    precheckNonempty "" = none
    ∧ start_follow_chain precheckNonempty (fun l => l) (fun _ => some pktC8)
        (fun _ _ => [1]) (fun _ => true)
        { nodes := ["", "good"], up_to := 10, metadata := some ⟨"b", [1]⟩ } "b"
      = .ok { packet := pktC8, beacon_id := "b", peers := ["good"] } := by
  refine ⟨?_, ?_⟩ <;> decide

/-- Claim C8 amended: malformed peer addresses are skipped individually;
`start_follow_chain` fails — immediately, with `PeersInvalidFormat`,
independently of any peer response — exactly when every address in the
request fails validation; a request whose valid-peer list is nonempty
never produces `PeersInvalidFormat`. -/
theorem claim_C8_all_peers_invalid_fails
    (precheck : String → Option String) (shuffle : List String → List String)
    (respond : String → Option ChainInfoPacket)
    (hashPacket : ChainInfoPacket → String → List Nat)
    (genesisOk : List Nat → Bool) (req : StartSyncRequest)
    (beacon_id : String) :
    ((req.nodes.filterMap precheck).isEmpty = true →
      start_follow_chain precheck shuffle respond hashPacket genesisOk req
          beacon_id
        = .err .PeersInvalidFormat)
    ∧ ((req.nodes.filterMap precheck).isEmpty = false →
      start_follow_chain precheck shuffle respond hashPacket genesisOk req
          beacon_id
        ≠ .err .PeersInvalidFormat) := by
  constructor
  · intro h
    simp [start_follow_chain, h]
  · intro h
    simp only [start_follow_chain, h]
    rw [if_neg Bool.false_ne_true]
    split
    · rename_i e heq
      have he := chain_info_from_peers_err_eq respond beacon_id
        (shuffle (req.nodes.filterMap precheck)) e heq
      subst he
      simp
    · rename_i packet heq
      split
      · simp
      · rename_i m heq2
        split
        · simp
        · split
          · simp
          · simp

theorem claim_C8_all_peers_invalid_fails_witness :
    ((["x"] : List String).filterMap precheckNonempty).isEmpty = false
    ∧ (([""] : List String).filterMap precheckNonempty).isEmpty = true
    ∧ start_follow_chain precheckNonempty (fun l => l) (fun _ => none)
        (fun _ _ => [1]) (fun _ => true)
        { nodes := [""], up_to := 10, metadata := some ⟨"b", [1]⟩ } "b"
      = .err .PeersInvalidFormat
    ∧ start_follow_chain precheckNonempty (fun l => l) (fun _ => none)
        (fun _ _ => [1]) (fun _ => true)
        { nodes := ["x"], up_to := 10, metadata := some ⟨"b", [1]⟩ } "b"
      ≠ .err .PeersInvalidFormat :=
  ⟨by decide, by decide,
   (claim_C8_all_peers_invalid_fails precheckNonempty (fun l => l)
      (fun _ => none) (fun _ _ => [1]) (fun _ => true)
      { nodes := [""], up_to := 10, metadata := some ⟨"b", [1]⟩ } "b").1
     (by decide),
   (claim_C8_all_peers_invalid_fails precheckNonempty (fun l => l)
      (fun _ => none) (fun _ _ => [1]) (fun _ => true)
      { nodes := ["x"], up_to := 10, metadata := some ⟨"b", [1]⟩ } "b").2
     (by decide)⟩

theorem claim_C7_hash_mismatch_diagnostic_witness :
    start_follow_chain (fun s => some s) (fun l => l) (fun _ => some pktC7)
        (fun _ _ => [3]) (fun _ => true)
        { nodes := ["n1"], up_to := 10, metadata := some ⟨"b", [1]⟩ } "b"
      = .err (.ChainHashMismatch (mismatchDetails [3] [2]))
    ∧ start_follow_chain (fun s => some s) (fun l => l) (fun _ => some pktC7)
        (fun _ _ => [1]) (fun _ => true)
        { nodes := ["n1"], up_to := 10, metadata := some ⟨"b", [1]⟩ } "b"
      ≠ .err (.ChainHashMismatch "divergent") :=
  ⟨by
    have h := (claim_C7_hash_mismatch_diagnostic (fun s => some s)
      (fun l => l) (fun _ => some pktC7) (fun _ _ => [3]) (fun _ => true)
      { nodes := ["n1"], up_to := 10, metadata := some ⟨"b", [1]⟩ } "b"
      ⟨"b", [1]⟩ pktC7 rfl (by decide) (by decide)).1 (by decide)
    simpa using h,
   by
    have h := (claim_C7_hash_mismatch_diagnostic (fun s => some s)
      (fun l => l) (fun _ => some pktC7) (fun _ _ => [1]) (fun _ => true)
      { nodes := ["n1"], up_to := 10, metadata := some ⟨"b", [1]⟩ } "b"
      ⟨"b", [1]⟩ pktC7 rfl (by decide) (by decide)).2 (by decide) "divergent"
    simpa using h⟩

/-! ## Claim about the resync liveness monitor -/

/-- Claim C9: `HandleReSync::is_running` returns false if the wrapped
task has finished; it also returns false when the task has not finished
but the elapsed time since the last recorded beacon exceeds
`period * 2`; and it returns true only when the task is unfinished and
the elapsed time is within that window. -/
theorem claim_C9_is_running (finished : Bool) (elapsed period : Nat) :
    (finished = true → is_running finished elapsed (resyncExpiry period) = false)
    ∧ (resyncExpiry period < elapsed →
        is_running finished elapsed (resyncExpiry period) = false)
    ∧ (is_running finished elapsed (resyncExpiry period) = true →
        finished = false ∧ elapsed < resyncExpiry period) := by
  refine ⟨?_, ?_, ?_⟩
  · intro h
    simp [is_running, h]
  · intro h
    cases finished with
    | true => simp [is_running]
    | false =>
      simp only [is_running, if_false, Bool.false_eq_true]
      simp only [decide_eq_false_iff_not]
      omega
  · intro h
    cases finished with
    | true => simp [is_running] at h
    | false =>
      refine ⟨rfl, ?_⟩
      simp only [is_running, if_false, Bool.false_eq_true,
        decide_eq_true_eq] at h
      exact h

theorem claim_C9_is_running_witness :
    is_running true 0 (resyncExpiry 3) = false
    ∧ is_running false 7 (resyncExpiry 3) = false
    ∧ (false = false ∧ 5 < resyncExpiry 3) :=
  ⟨(claim_C9_is_running true 0 3).1 rfl,
   (claim_C9_is_running false 7 3).2.1 (by decide),
   (claim_C9_is_running false 5 3).2.2 (by decide)⟩

end DrandSync
